import Mathlib

/-!
Shallow embedding of the bisslog-fastapi HTTP trigger compiler.

Source files embedded:
* `src/bisslog_fastapi/utils/extract_path_vars.py` — the path-variable
  extractor `re.findall(r"{([a-zA-Z_][a-zA-Z0-9_]*)}", path or "")`.
* `src/bisslog_fastapi/builder/strategies/trigger_http_processor.py` —
  `TriggerHttpProcessor.__call__`, which generates one FastAPI route handler
  (decorator line, signature, body) plus the import requirements.

Python `dict[str, set[str]]` import maps are embedded as
`Finset (String × String)` of (module, symbol) pairs: the source only ever
merges names into per-module sets (`setdefault(mod, set()).add/update`), and
the spec declares insertion order of import sets irrelevant.

The type-introspection helpers (`get_param_type`, `type_to_str_and_imports`,
`infer_response_model`) are repository code not present under `src/`; the
spec treats them as an opaque lookup capability, and they are modelled here
as the `CallableSig` structure whose fields return, for a parameter name,
the rendered type text together with the imports that text requires.
-/

namespace Bisslog

/-- The character `{` (written numerically throughout). -/
def openCh : Char := Char.ofNat 123

/-- The character `}`. -/
def closeCh : Char := Char.ofNat 125

/-- ASCII identifier start class of the regex: `[a-zA-Z_]`. -/
def isIdentStart (c : Char) : Bool := c.isAlpha || c == '_'

/-- ASCII identifier continuation class of the regex: `[a-zA-Z0-9_]`. -/
def isIdentCont (c : Char) : Bool := c.isAlphanum || c == '_'

/-- Split a character list at every occurrence of `{`: the first component is
the text before the first `{`, the second has one segment per `{`, holding the
text between that `{` and the next (or the end). -/
def splitOnOpen : List Char → List Char × List (List Char)
  | [] => ([], [])
  | c :: r =>
    if c = openCh then ([], (splitOnOpen r).1 :: (splitOnOpen r).2)
    else (c :: (splitOnOpen r).1, (splitOnOpen r).2)

/-- Greedy identifier munch after a confirmed identifier-start character:
consume `[a-zA-Z0-9_]*`, then require a closing `}`.  Mirrors the regex
`[a-zA-Z0-9_]*}` (the star never backtracks usefully because `}` is not an
identifier character). -/
def parseVarTail (acc : List Char) : List Char → Option (List Char)
  | [] => none
  | c :: r =>
    if isIdentCont c then parseVarTail (acc ++ [c]) r
    else if c = closeCh then some acc else none

/-- Try to match `[a-zA-Z_][a-zA-Z0-9_]*}` at the start of a segment (the text
following one `{`), returning the captured identifier. -/
def parseVar : List Char → Option String
  | [] => none
  | c :: r => if isIdentStart c then (parseVarTail [c] r).map String.mk else none

/-- All matches of `{([a-zA-Z_][a-zA-Z0-9_]*)}` in left-to-right order.
Every regex match starts at a `{`, and a match never extends past the next `{`
(the consumed identifier characters and `}` are not `{`), so scanning is
equivalent to attempting one anchored match after every `{` occurrence. -/
def findVars (l : List Char) : List String := (splitOnOpen l).2.filterMap parseVar

/-- Embedding of `extract_path_vars` (utils/extract_path_vars.py):
`re.findall(r"{([a-zA-Z_][a-zA-Z0-9_]*)}", path or "")`, where `path or ""`
maps a missing (`None`) path to the empty string. -/
def extract_path_vars (path : Option String) : List String :=
  findVars ((path.getD "").data)

/-- Embedding of `TriggerHttpProcessor._extract_path_param_names_from_path`,
the same pattern applied to an always-present string. -/
def extractPathParamNames (path : String) : List String := findVars path.data

/-- Python `x or default` on an optional string: `None` and `""` are falsy. -/
def pyOr (s : Option String) (d : String) : String :=
  match s with
  | none => d
  | some s => if s = "" then d else s

/-- Python truthiness of an optional string. -/
def pyTruthy (s : Option String) : Bool :=
  match s with
  | none => false
  | some s => s != ""

/-- Python `str.upper` (ASCII-faithful; the method strings used are ASCII). -/
def pyToUpper (s : String) : String := String.mk (s.data.map Char.toUpper)

/-- Python `str.lower` (ASCII-faithful). -/
def pyToLower (s : String) : String := String.mk (s.data.map Char.toLower)

/-- Python `str.startswith`: character prefix test. -/
def pyStartsWith (s p : String) : Bool := p.data.isPrefixOf s.data

/-- Characters strictly after the first `.`, if any. -/
def afterDotAux : List Char → Option (List Char)
  | [] => none
  | c :: r => if c = '.' then some r else afterDotAux r

/-- Python `s.split(".", 1)[1]`: everything after the first dot.  In the
source this is only reached on keys that contain a dot; on a dotless string
(where Python would raise IndexError) the input is returned unchanged. -/
def afterFirstDot (s : String) : String :=
  match afterDotAux s.data with
  | some r => String.mk r
  | none => s

/-- A single-quote character as a string. -/
def sq : String := String.singleton (Char.ofNat 39)

/-- Python `repr` of a string, for the identifier-like alias names the
generator quotes (no embedded quotes or escapes). -/
def pyRepr (s : String) : String := sq ++ s ++ sq

/-- A type annotation as observed through the collaborators: its rendered
source text and the imports that text requires.

Modelled from the spec: "given a type, return its source representation and
required imports" (`type_to_str_and_imports`, not under `src/`). -/
structure PyAnn where
  typeStr : String
  extraImports : Finset (String × String)
deriving DecidableEq

/-- Modelled from the spec: the callable-introspection collaborators
(`get_param_type`, `infer_response_model`, not under `src/`) as an opaque
lookup table — "given a callable and a field name, return the declared
parameter type, or none if unknown" and "given a callable, infer its return
type if statically derivable", each composed with the rendering step. -/
structure CallableSig where
  paramType : String → Option PyAnn
  returnAnn : Option PyAnn

/-- Modelled from the spec: the rendering of the builtin `str` fallback type
("fallback: generic text type"), which needs no imports. -/
def strAnn : PyAnn := ⟨"str", ∅⟩

/-- Embedding of `get_param_type(callable_obj, dst) or str` followed by rendering. -/
def annFor (c : CallableSig) (dst : String) : PyAnn :=
  (c.paramType dst).getD strAnn

/-- The slice of `UseCaseCodeInfo` the compiler reads. -/
structure UseCaseCodeInfo where
  is_coroutine : Bool

/-- The slice of the `TriggerHttp` schema object the compiler reads.  The
mapper is an insertion-ordered association list, as a Python `dict` is. -/
structure TriggerHttp where
  method : Option String
  path : Option String
  mapper : Option (List (String × String))

/-- The compiler's output: import requirements plus generated source text. -/
structure StaticPythonConstructData where
  importing : Finset (String × String)
  body : String
deriving DecidableEq

/-- Strict lexicographic comparison of character lists by code point, the
order Python uses to compare strings. -/
def charListLtB : List Char → List Char → Bool
  | [], [] => false
  | [], _ :: _ => true
  | _ :: _, [] => false
  | a :: as, b :: bs => if a < b then true else if b < a then false else charListLtB as bs

/-- Reflexive lexicographic comparison of character lists by code point. -/
def charListLeB : List Char → List Char → Bool
  | [], _ => true
  | _ :: _, [] => false
  | a :: as, b :: bs => if a < b then true else if b < a then false else charListLeB as bs

theorem charListLtB_irrefl : ∀ l : List Char, charListLtB l l = false
  | [] => rfl
  | a :: as => by simp [charListLtB, charListLtB_irrefl as]

theorem charListLeB_refl : ∀ l : List Char, charListLeB l l = true
  | [] => rfl
  | a :: as => by simp [charListLeB, charListLeB_refl as]

theorem charListLtB_nil_right : ∀ l : List Char, charListLtB l [] = false
  | [] => rfl
  | _ :: _ => rfl

theorem str_ext {a b : String} (h : a.data = b.data) : a = b :=
  congrArg String.mk h

theorem charListLeB_of_ltB : ∀ {a b : List Char}, charListLtB a b = true → charListLeB a b = true
  | [], _, _ => rfl
  | _ :: _, [], h => by simp [charListLtB] at h
  | a :: as, b :: bs, h => by
    by_cases hab : a < b
    · simp [charListLeB, hab]
    · by_cases hba : b < a
      · simp [charListLtB, hab, hba] at h
      · simp only [charListLtB, if_neg hab, if_neg hba] at h
        simp only [charListLeB, if_neg hab, if_neg hba]
        exact charListLeB_of_ltB h

theorem char_eq_of_not_lt {a b : Char} (h1 : ¬a < b) (h2 : ¬b < a) : a = b :=
  le_antisymm (le_of_not_lt h2) (le_of_not_lt h1)

theorem charListLtB_trichotomy :
    ∀ a b : List Char, charListLtB a b = true ∨ charListLtB b a = true ∨ a = b
  | [], [] => Or.inr (Or.inr rfl)
  | [], _ :: _ => Or.inl rfl
  | _ :: _, [] => Or.inr (Or.inl rfl)
  | a :: as, b :: bs => by
    by_cases hab : a < b
    · exact Or.inl (by simp [charListLtB, hab])
    · by_cases hba : b < a
      · exact Or.inr (Or.inl (by simp [charListLtB, hba]))
      · have hc : a = b := char_eq_of_not_lt hab hba
        rcases charListLtB_trichotomy as bs with h | h | h
        · exact Or.inl (by simp [charListLtB, hab, hba, h])
        · exact Or.inr (Or.inl (by simp [charListLtB, hab, hba, h]))
        · exact Or.inr (Or.inr (by rw [hc, h]))

theorem charListLtB_trans :
    ∀ {a b c : List Char}, charListLtB a b = true → charListLtB b c = true →
      charListLtB a c = true
  | [], _, [], _, h2 => by simp [charListLtB_nil_right] at h2
  | [], _, _ :: _, _, _ => rfl
  | _ :: _, [], _, h1, _ => by simp [charListLtB_nil_right] at h1
  | _ :: _, _ :: _, [], _, h2 => by simp [charListLtB_nil_right] at h2
  | a :: as, b :: bs, c :: cs, h1, h2 => by
    by_cases hab : a < b <;> by_cases hbc : b < c
    · simp [charListLtB, hab.trans hbc]
    · by_cases hcb : c < b
      · simp [charListLtB, hab, hbc, hcb] at h2
      · have : b = c := char_eq_of_not_lt hbc hcb
        subst this
        simp [charListLtB, hab]
    · by_cases hba : b < a
      · simp [charListLtB, hab, hba] at h1
      · have : a = b := char_eq_of_not_lt hab hba
        subst this
        simp [charListLtB, hbc]
    · by_cases hba : b < a
      · simp [charListLtB, hab, hba] at h1
      · have hb : a = b := char_eq_of_not_lt hab hba
        subst hb
        by_cases hca : c < a
        · simp [charListLtB, hbc, hca] at h2
        · have hcc : a = c := char_eq_of_not_lt hbc hca
          subst hcc
          simp only [charListLtB, if_neg hab, if_neg (lt_irrefl a), if_neg hbc] at h1 h2 ⊢
          exact charListLtB_trans h1 h2

theorem charListLtB_asymm {a b : List Char}
    (h1 : charListLtB a b = true) (h2 : charListLtB b a = true) : False := by
  have := charListLtB_trans h1 h2
  rw [charListLtB_irrefl] at this
  exact Bool.false_ne_true this

theorem charListLeB_iff {a b : List Char} :
    charListLeB a b = true ↔ charListLtB a b = true ∨ a = b := by
  constructor
  · intro h
    rcases charListLtB_trichotomy a b with h1 | h1 | h1
    · exact Or.inl h1
    · exfalso
      induction a generalizing b with
      | nil => simp [charListLtB_nil_right] at h1
      | cons x xs ih =>
        cases b with
        | nil => simp [charListLeB] at h
        | cons y ys =>
          by_cases hxy : x < y
          · simp [charListLtB, hxy, lt_asymm hxy] at h1
          · by_cases hyx : y < x
            · simp [charListLeB, hxy, hyx] at h
            · simp only [charListLtB, if_neg hyx, if_neg hxy] at h1
              simp only [charListLeB, if_neg hxy, if_neg hyx] at h
              exact ih h h1
    · exact Or.inr h1
  · rintro (h | rfl)
    · exact charListLeB_of_ltB h
    · exact charListLeB_refl a

theorem charListLeB_total (a b : List Char) :
    charListLeB a b = true ∨ charListLeB b a = true := by
  rcases charListLtB_trichotomy a b with h | h | h
  · exact Or.inl (charListLeB_of_ltB h)
  · exact Or.inr (charListLeB_of_ltB h)
  · exact Or.inl (charListLeB_iff.mpr (Or.inr h))

theorem charListLeB_antisymm {a b : List Char}
    (h1 : charListLeB a b = true) (h2 : charListLeB b a = true) : a = b := by
  rcases charListLeB_iff.mp h1 with h1 | h1
  · rcases charListLeB_iff.mp h2 with h2 | h2
    · exact absurd (charListLtB_trans h1 h2) (by simp [charListLtB_irrefl])
    · exact h2.symm
  · exact h1

theorem charListLeB_trans {a b c : List Char}
    (h1 : charListLeB a b = true) (h2 : charListLeB b c = true) :
    charListLeB a c = true := by
  rcases charListLeB_iff.mp h1 with h1 | rfl
  · rcases charListLeB_iff.mp h2 with h2 | rfl
    · exact charListLeB_of_ltB (charListLtB_trans h1 h2)
    · exact charListLeB_of_ltB h1
  · exact h2

/-- Lexicographic (code-point) comparison on strings, as Python compares the
source keys. -/
def keyLe (a b : String) : Prop := charListLeB a.data b.data = true

/-- Order in which Python `sorted` lists the `(key, value)` pairs of the
mapper items: lexicographic on the tuple, primary key then value. -/
def pairLeB (a b : String × String) : Bool :=
  charListLtB a.1.data b.1.data
    || (a.1.data == b.1.data && charListLeB a.2.data b.2.data)

def pairLe (a b : String × String) : Prop := pairLeB a b = true

instance : DecidableRel pairLe := fun a b =>
  inferInstanceAs (Decidable (pairLeB a b = true))

theorem pairLe_iff {a b : String × String} :
    pairLe a b ↔ charListLtB a.1.data b.1.data = true
      ∨ (a.1 = b.1 ∧ charListLeB a.2.data b.2.data = true) := by
  have hd : (a.1.data == b.1.data) = true ↔ a.1 = b.1 := by
    rw [beq_iff_eq]
    constructor
    · exact str_ext
    · intro h
      rw [h]
  simp [pairLe, pairLeB, Bool.or_eq_true, Bool.and_eq_true, hd]

instance : IsTotal (String × String) pairLe := by
  constructor
  intro a b
  rcases charListLtB_trichotomy a.1.data b.1.data with h | h | h
  · exact Or.inl (pairLe_iff.mpr (Or.inl h))
  · exact Or.inr (pairLe_iff.mpr (Or.inl h))
  · have he : a.1 = b.1 := str_ext h
    rcases charListLeB_total a.2.data b.2.data with h2 | h2
    · exact Or.inl (pairLe_iff.mpr (Or.inr ⟨he, h2⟩))
    · exact Or.inr (pairLe_iff.mpr (Or.inr ⟨he.symm, h2⟩))

instance : IsTrans (String × String) pairLe := by
  constructor
  intro a b c hab hbc
  rcases pairLe_iff.mp hab with h1 | ⟨e1, l1⟩ <;> rcases pairLe_iff.mp hbc with h2 | ⟨e2, l2⟩
  · exact pairLe_iff.mpr (Or.inl (charListLtB_trans h1 h2))
  · exact pairLe_iff.mpr (Or.inl (e2 ▸ h1))
  · exact pairLe_iff.mpr (Or.inl (e1 ▸ h2))
  · exact pairLe_iff.mpr (Or.inr ⟨e1.trans e2, charListLeB_trans l1 l2⟩)

instance : IsAntisymm (String × String) pairLe := by
  constructor
  intro a b hab hba
  rcases pairLe_iff.mp hab with h1 | ⟨e1, l1⟩
  · rcases pairLe_iff.mp hba with h2 | ⟨e2, l2⟩
    · exact absurd (charListLtB_trans h1 h2) (by simp [charListLtB_irrefl])
    · exact absurd h1 (by simp [e2, charListLtB_irrefl])
  · rcases pairLe_iff.mp hba with h2 | ⟨e2, l2⟩
    · exact absurd h2 (by simp [e1, charListLtB_irrefl])
    · exact Prod.ext e1 (str_ext (charListLeB_antisymm l1 l2))

/-- Embedding of `sorted((k, v) for k, v in mapper.items() if p(k, v))`. -/
def sortedEntries (p : String × String → Bool) (mapper : List (String × String)) :
    List (String × String) :=
  List.insertionSort pairLe (mapper.filter p)

/-- Python `mapper[k]` guarded by `k in mapper` (dict keys are unique, so the
first hit is the only hit). -/
def lookupMapper (mapper : List (String × String)) (k : String) : Option String :=
  (mapper.find? (fun kv => kv.1 == k)).map Prod.snd

/-- Everything `TriggerHttpProcessor.__call__` reads out of the mapper dict:
the four sorted dotted-key category selections, the three bare aggregate
lookups, and non-emptiness. -/
structure MapperView where
  pq : List (String × String)
  bodyAgg : Option String
  bodyFields : List (String × String)
  paramsAgg : Option String
  paramsFields : List (String × String)
  headersAgg : Option String
  headerFields : List (String × String)
  isEmpty : Bool
deriving DecidableEq

/-- Build the `MapperView` with the exact predicates of the source
(`k.startswith("path_query.")`, `k.startswith("body.") and k != "body"`, …). -/
def mapperView (mapper : List (String × String)) : MapperView where
  pq := sortedEntries (fun kv => pyStartsWith kv.1 "path_query.") mapper
  bodyAgg := lookupMapper mapper "body"
  bodyFields := sortedEntries (fun kv => pyStartsWith kv.1 "body." && kv.1 != "body") mapper
  paramsAgg := lookupMapper mapper "params"
  paramsFields := sortedEntries (fun kv => pyStartsWith kv.1 "params." && kv.1 != "params") mapper
  headersAgg := lookupMapper mapper "headers"
  headerFields := sortedEntries (fun kv => pyStartsWith kv.1 "headers." && kv.1 != "headers") mapper
  isEmpty := mapper.isEmpty

/-- Path-bound parameter declarations for the `path_query.<name>` entries:
`f"{src}: {type_str} = Path(...)"` with `src = key.split(".", 1)[1]`. -/
def pqSig (c : CallableSig) (entries : List (String × String)) : List String :=
  entries.map (fun kv =>
    afterFirstDot kv.1 ++ ": " ++ (annFor c kv.2).typeStr ++ " = Path(...)")

/-- Body-bound field declarations for `body.<field>` entries:
`f"{field}: {type_str} = Body(..., alias={field!r}),  "`. -/
def bodyFieldSig (c : CallableSig) (entries : List (String × String)) : List String :=
  entries.map (fun kv =>
    afterFirstDot kv.1 ++ ": " ++ (annFor c kv.2).typeStr
      ++ (" = Body(..., alias=" ++ pyRepr (afterFirstDot kv.1) ++ "),  "))

/-- Query-bound field declarations for `params.<field>` entries:
`f"{field}: {type_str} = Query(None, alias={field!r}),  "`. -/
def paramsFieldSig (c : CallableSig) (entries : List (String × String)) : List String :=
  entries.map (fun kv =>
    afterFirstDot kv.1 ++ ": " ++ (annFor c kv.2).typeStr
      ++ (" = Query(None, alias=" ++ pyRepr (afterFirstDot kv.1) ++ "),  "))

/-- Header-bound field declarations for `headers.<field>` entries:
`f"{field}: {type_str} = Header(..., alias={field!r}),  "`. -/
def headerFieldSig (c : CallableSig) (entries : List (String × String)) : List String :=
  entries.map (fun kv =>
    afterFirstDot kv.1 ++ ": " ++ (annFor c kv.2).typeStr
      ++ (" = Header(..., alias=" ++ pyRepr (afterFirstDot kv.1) ++ "),  "))

/-- One aggregate declaration for a bare `body`/`params`/`headers` key, if the
key is mapped: the destination type if declared, else the given fallback text,
followed by the category-specific default expression. -/
def bareSig (c : CallableSig) (dst : Option String) (fallbackTs suffix : String) :
    List String :=
  match dst with
  | none => []
  | some dst =>
    [dst ++ ": "
      ++ (match c.paramType dst with
          | none => fallbackTs
          | some a => a.typeStr)
      ++ suffix]

/-- ArgumentBinding pair recorded for each dotted-category entry:
`(dst, field)` with the field name declared as the local. -/
def fieldBind (entries : List (String × String)) : List (String × String) :=
  entries.map (fun kv => (kv.2, afterFirstDot kv.1))

/-- ArgumentBinding pair recorded for a bare aggregate key: `(dst, dst)`. -/
def bareBind (dst : Option String) : List (String × String) :=
  match dst with
  | none => []
  | some d => [(d, d)]

/-- Explicit-mapper mode: `sig_params` accumulated over the seven category
blocks, in the source's fixed textual order (lines 54-161). -/
def mapperSigParams (c : CallableSig) (v : MapperView) : List String :=
  pqSig c v.pq
    ++ bareSig c v.bodyAgg "Dict[str, Any]" " = Body(...)"
    ++ bodyFieldSig c v.bodyFields
    ++ bareSig c v.paramsAgg "Dict[str, Any]" " = Depends(_all_query_params),  "
    ++ paramsFieldSig c v.paramsFields
    ++ bareSig c v.headersAgg "Dict[str, str]" " = Depends(_all_headers),  "
    ++ headerFieldSig c v.headerFields

/-- Explicit-mapper mode: `uc_arg_names` accumulated over the same seven
category blocks. -/
def mapperBindings (v : MapperView) : List (String × String) :=
  fieldBind v.pq
    ++ bareBind v.bodyAgg
    ++ fieldBind v.bodyFields
    ++ bareBind v.paramsAgg
    ++ fieldBind v.paramsFields
    ++ bareBind v.headersAgg
    ++ fieldBind v.headerFields

/-- Fallback mode: `sig_params` (lines 163-181): one required path parameter
per placeholder, then the three fixed aggregates. -/
def fallbackSigParams (c : CallableSig) (path : String) : List String :=
  (extractPathParamNames path).map (fun p =>
      p ++ ": " ++ (annFor c p).typeStr ++ " = Path(...)")
    ++ ["body: Dict[str, Any] = Body(default=\x7b\x7d)",
        "query_params: Dict[str, Any] = Depends(_all_query_params)",
        "headers: Dict[str, str] = Depends(_all_headers)"]

/-- The `sig_params` of the generated handler, by mode. -/
def compiledSigParams (c : CallableSig) (v : MapperView) (path : String) : List String :=
  if v.isEmpty then fallbackSigParams c path else mapperSigParams c v

/-- Imports contributed by one dotted category: per processed entry, the
destination type's own imports plus the FastAPI marker symbol. -/
def catFieldImports (c : CallableSig) (sym : String) (entries : List (String × String)) :
    Finset (String × String) :=
  entries.foldl (fun acc kv => acc ∪ insert ("fastapi", sym) (annFor c kv.2).extraImports) ∅

/-- Imports contributed by a bare aggregate key, if mapped: the destination
type's imports (or the fallback typing imports) plus the FastAPI symbol. -/
def bareImports (c : CallableSig) (dst : Option String)
    (fallbackImps : Finset (String × String)) (sym : String) : Finset (String × String) :=
  match dst with
  | none => ∅
  | some dst =>
    (match c.paramType dst with
      | none => fallbackImps
      | some a => a.extraImports) ∪ {("fastapi", sym)}

/-- Imports required by the inferred return annotation, if any. -/
def returnImports (c : CallableSig) : Finset (String × String) :=
  match c.returnAnn with
  | none => ∅
  | some a => a.extraImports

/-- The import set `{"typing": {"Dict", "Any"}}`. -/
def typingDictAny : Finset (String × String) := {("typing", "Dict"), ("typing", "Any")}

/-- Explicit-mapper mode import set: `Depends` unconditionally, then the seven
category contributions merged by union. -/
def mapperImports (c : CallableSig) (v : MapperView) : Finset (String × String) :=
  insert ("fastapi", "Depends")
    (catFieldImports c "Path" v.pq
      ∪ bareImports c v.bodyAgg typingDictAny "Body"
      ∪ catFieldImports c "Body" v.bodyFields
      ∪ bareImports c v.paramsAgg typingDictAny "Depends"
      ∪ catFieldImports c "Query" v.paramsFields
      ∪ bareImports c v.headersAgg {("typing", "Dict")} "Depends"
      ∪ catFieldImports c "Header" v.headerFields)

/-- Fallback mode import set: `Path` plus type imports per path parameter,
then always `Body`, `Depends` and the typing fallbacks. -/
def fallbackImports (c : CallableSig) (path : String) : Finset (String × String) :=
  (extractPathParamNames path).foldl
      (fun acc p => acc ∪ insert ("fastapi", "Path") (annFor c p).extraImports) ∅
    ∪ ({("fastapi", "Body"), ("fastapi", "Depends")} ∪ typingDictAny)

/-- The full import requirement of the generated handler. -/
def compiledImports (c : CallableSig) (v : MapperView) (path : String) :
    Finset (String × String) :=
  (if v.isEmpty then fallbackImports c path else mapperImports c v) ∪ returnImports c

/-- Embedding of `extra_args_decorator`: optional `name=` and `description=` keyword
arguments, appended when the corresponding input is truthy. -/
def extraArgsDecorator (n d : Option String) : String :=
  (if pyTruthy n then ", name=\"" ++ n.getD "" ++ "\"" else "")
    ++ (if pyTruthy d then ", description=\"" ++ d.getD "" ++ "\"" else "")

/-- The decorator line
`@app.{method.lower() if method else "GET"}("{path}"{extra_args_decorator})`. -/
def httpDecorator (method path : String) (n d : Option String) : String :=
  "@app." ++ (if method = "" then "GET" else pyToLower method)
    ++ "(\"" ++ path ++ "\"" ++ extraArgsDecorator n d ++ ")"

/-- The suffix ` -> {return_type_str}` when a return annotation is inferable, else empty. -/
def retString (c : CallableSig) : String :=
  match c.returnAnn with
  | none => ""
  | some a => " -> " ++ a.typeStr

/-- The handler definition line: `async def`/`def`, the deterministic handler
name `{use_case_key}_handler_{identifier}`, the joined signature, and the
optional return annotation. -/
def defLine (key : String) (ui : UseCaseCodeInfo) (sig : List String)
    (c : CallableSig) (id : Int) : String :=
  (if ui.is_coroutine then "async def" else "def") ++ " " ++ key ++ "_handler_"
    ++ toString id ++ "(" ++ String.intercalate ", " sig ++ ")" ++ retString c ++ ":"

/-- Docstring block: present exactly when a description is supplied. -/
def docstringLines (d : Option String) : List String :=
  if pyTruthy d then ["    \"\"\"" ++ d.getD "" ++ "\"\"\""] else []

/-- Statements that populate `_kwargs`, by mode: per-binding assignments in
explicit-mapper mode; path inserts then the body/query/header merges in
fallback mode. -/
def kwargsLines (v : MapperView) (path : String) : List String :=
  if v.isEmpty then
    (extractPathParamNames path).map (fun p => "    _kwargs[\"" ++ p ++ "\"] = " ++ p)
      ++ ["    if isinstance(body, dict):",
          "        _kwargs.update(body)",
          "    _kwargs.update(query_params)",
          "    _kwargs.update(headers)"]
  else
    (mapperBindings v).map (fun pr => "    _kwargs[\"" ++ pr.1 ++ "\"] = " ++ pr.2)

/-- The invocation line: awaited exactly when the callable is a coroutine. -/
def resultLine (ui : UseCaseCodeInfo) (ucVar : String) : String :=
  "    result = " ++ (if ui.is_coroutine then "await " else "") ++ ucVar ++ "(**_kwargs)"

/-- All lines of the generated handler, in emission order. -/
def compiledLines (key ucVar : String) (ui : UseCaseCodeInfo) (method path : String)
    (v : MapperView) (c : CallableSig) (id : Int) (n d : Option String) : List String :=
  httpDecorator method path n d
    :: defLine key ui (compiledSigParams c v path) c id
    :: (docstringLines d
        ++ ("    _kwargs: Dict[str, Any] = \x7b\x7d" :: kwargsLines v path)
        ++ [resultLine ui ucVar, "    return result", ""])

/-- Embedding of `TriggerHttpProcessor.__call__`: normalise method, path and
mapper exactly as lines 42-48 do, then emit imports and the joined body. -/
def compileHttpTrigger (key ucVar : String) (ui : UseCaseCodeInfo) (t : TriggerHttp)
    (c : CallableSig) (id : Int) (n d : Option String) : StaticPythonConstructData :=
  let v := mapperView (t.mapper.getD [])
  let method := pyToUpper (pyOr t.method "GET")
  let path := pyOr t.path ("/" ++ key)
  ⟨compiledImports c v path,
   String.intercalate "\n" (compiledLines key ucVar ui method path v c id n d)⟩

/-! Declarative characterisation of the extractor: a template is a sequence
of literal stretches (no `{`) and well-formed placeholders; the extractor
must return exactly the placeholder names, left to right. -/

/-- A valid regex identifier: `[a-zA-Z_][a-zA-Z0-9_]*`. -/
def validNameB (n : List Char) : Bool :=
  match n with
  | [] => false
  | c :: cs => isIdentStart c && cs.all isIdentCont

/-- One piece of a path template: literal text or a `{name}` placeholder. -/
inductive TplPart where
  | lit (s : List Char)
  | var (n : List Char)

/-- Literal pieces may not contain `{`; placeholder names must be valid
identifiers. -/
def validPart : TplPart → Bool
  | .lit s => s.all (fun x => !(x == openCh))
  | .var n => validNameB n

/-- Render one template piece back to text (`{name}` for placeholders). -/
def renderPart : TplPart → List Char
  | .lit s => s
  | .var n => openCh :: (n ++ [closeCh])

/-- Render a whole template. -/
def renderTpl : List TplPart → List Char
  | [] => []
  | p :: ps => renderPart p ++ renderTpl ps

/-- The placeholder names of a template, in order. -/
def varsOfTpl : List TplPart → List String
  | [] => []
  | .lit _ :: ps => varsOfTpl ps
  | .var n :: ps => String.mk n :: varsOfTpl ps

theorem isIdentStart_ne_open {c : Char} (h : isIdentStart c = true) : c ≠ openCh := by
  intro he
  rw [he] at h
  exact absurd h (by decide)

theorem isIdentCont_ne_open {c : Char} (h : isIdentCont c = true) : c ≠ openCh := by
  intro he
  rw [he] at h
  exact absurd h (by decide)

theorem splitOnOpen_append {a : List Char} (b : List Char) (h : ∀ x ∈ a, x ≠ openCh) :
    splitOnOpen (a ++ b) = (a ++ (splitOnOpen b).1, (splitOnOpen b).2) := by
  induction a with
  | nil => rfl
  | cons c r ih =>
    have hc : c ≠ openCh := h c (List.mem_cons_self c r)
    simp only [List.cons_append, splitOnOpen, if_neg hc, List.append_eq]
    rw [ih (fun x hx => h x (List.mem_cons_of_mem c hx))]

theorem splitOnOpen_open (r : List Char) :
    splitOnOpen (openCh :: r) = ([], (splitOnOpen r).1 :: (splitOnOpen r).2) := by
  simp [splitOnOpen]

theorem splitOnOpen_close (r : List Char) :
    splitOnOpen (closeCh :: r) = (closeCh :: (splitOnOpen r).1, (splitOnOpen r).2) := by
  simp [splitOnOpen, show closeCh ≠ openCh from by decide]

theorem parseVarTail_spec :
    ∀ (cs acc y : List Char), (∀ x ∈ cs, isIdentCont x = true) →
      parseVarTail acc (cs ++ closeCh :: y) = some (acc ++ cs)
  | [], acc, y, _ => by
    simp [parseVarTail, show isIdentCont closeCh = false from by decide]
  | c :: cs, acc, y, h => by
    have hc : isIdentCont c = true := h c (List.mem_cons_self c cs)
    simp only [List.cons_append, parseVarTail, if_pos hc, List.append_eq]
    rw [parseVarTail_spec cs (acc ++ [c]) y (fun x hx => h x (List.mem_cons_of_mem c hx))]
    simp

theorem parseVar_valid {n : List Char} (y : List Char) (h : validNameB n = true) :
    parseVar (n ++ closeCh :: y) = some (String.mk n) := by
  cases n with
  | nil => simp [validNameB] at h
  | cons c cs =>
    simp only [validNameB, Bool.and_eq_true, List.all_eq_true] at h
    rw [List.cons_append]
    simp only [parseVar, if_pos h.1]
    rw [parseVarTail_spec cs [c] y h.2]
    rfl

theorem validName_no_open {n : List Char} (h : validNameB n = true) :
    ∀ x ∈ n, x ≠ openCh := by
  cases n with
  | nil => simp
  | cons c cs =>
    simp only [validNameB, Bool.and_eq_true, List.all_eq_true] at h
    intro x hx
    rcases List.mem_cons.mp hx with rfl | hx
    · exact isIdentStart_ne_open h.1
    · exact isIdentCont_ne_open (h.2 x hx)

theorem findVars_renderTpl :
    ∀ ps : List TplPart, (∀ p ∈ ps, validPart p = true) →
      findVars (renderTpl ps) = varsOfTpl ps
  | [], _ => rfl
  | .lit s :: ps, h => by
    have hs : ∀ x ∈ s, x ≠ openCh := by
      have hl := h (.lit s) (List.mem_cons_self _ _)
      simp only [validPart, List.all_eq_true] at hl
      intro x hx
      simpa using hl x hx
    show findVars (s ++ renderTpl ps) = varsOfTpl ps
    unfold findVars
    rw [splitOnOpen_append (renderTpl ps) hs]
    exact findVars_renderTpl ps (fun p hp => h p (List.mem_cons_of_mem _ hp))
  | .var n :: ps, h => by
    have hn : validNameB n = true := by
      simpa [validPart] using h (.var n) (List.mem_cons_self _ _)
    show findVars ((openCh :: (n ++ [closeCh])) ++ renderTpl ps)
      = String.mk n :: varsOfTpl ps
    have harr : (openCh :: (n ++ [closeCh])) ++ renderTpl ps
        = openCh :: (n ++ (closeCh :: renderTpl ps)) := by
      simp
    rw [harr]
    unfold findVars
    rw [splitOnOpen_open, splitOnOpen_append (closeCh :: renderTpl ps) (validName_no_open hn),
      splitOnOpen_close]
    simp only [List.filterMap_cons]
    have hseg : parseVar (n ++ closeCh :: (splitOnOpen (renderTpl ps)).1)
        = some (String.mk n) := parseVar_valid _ hn
    rw [hseg]
    have ih := findVars_renderTpl ps (fun p hp => h p (List.mem_cons_of_mem _ hp))
    unfold findVars at ih
    rw [ih]

/-- C5: the path-variable extractor returns exactly the ordered left-to-right
sequence of `{identifier}` placeholder names (identifier = letter or
underscore, then letters, digits or underscores); an empty or missing path
yields the empty sequence; malformed braces are ignored (the extractor is a
total function and simply skips non-matching text); the processor's own
`_extract_path_param_names_from_path` agrees with the utils extractor. -/
theorem extract_path_vars_spec :
    (∀ ps : List TplPart, (∀ p ∈ ps, validPart p = true) →
        extract_path_vars (some (String.mk (renderTpl ps))) = varsOfTpl ps)
      ∧ extract_path_vars none = []
      ∧ extract_path_vars (some "") = []
      ∧ (∀ s : String, extractPathParamNames s = extract_path_vars (some s))
      ∧ extract_path_vars (some "/a/\x7b9bad\x7d/\x7bok\x7d") = ["ok"]
      ∧ extract_path_vars (some "/x/\x7bunclosed") = [] := by
  refine ⟨?_, rfl, rfl, fun s => rfl, by decide, by decide⟩
  intro ps h
  show findVars (renderTpl ps) = varsOfTpl ps
  exact findVars_renderTpl ps h

/-- Witness for C5 at a concrete template: `/items/{item_id}`. -/
theorem extract_path_vars_spec_witness :
    extract_path_vars
        (some (String.mk (renderTpl [TplPart.lit "/items/".data, TplPart.var "item_id".data])))
      = ["item_id"] :=
  extract_path_vars_spec.1 [TplPart.lit "/items/".data, TplPart.var "item_id".data] (by decide)

/-! Determinism infrastructure: all mapper-derived data is invariant under
reordering of the mapper's items, provided its keys are unique — the
situation of a Python dict, whose equality sees only its key-value set. -/

theorem find?_cons_eq {α : Type} (p : α → Bool) (a : α) (l : List α) :
    List.find? p (a :: l) = if p a then some a else List.find? p l := by
  by_cases h : p a = true
  · rw [List.find?_cons_of_pos _ h, if_pos h]
  · rw [List.find?_cons_of_neg _ h, if_neg h]

theorem find?_eq_of_perm (k : String) {m₁ m₂ : List (String × String)} (h : m₁.Perm m₂) :
    (m₁.map Prod.fst).Nodup →
      m₁.find? (fun kv => kv.1 == k) = m₂.find? (fun kv => kv.1 == k) := by
  induction h with
  | nil => intro _; rfl
  | cons x h ih =>
    intro hnd
    rw [find?_cons_eq, find?_cons_eq]
    by_cases hx : (x.1 == k) = true
    · simp [hx]
    · simp only [hx, if_neg, Bool.false_eq_true, if_false]
      exact ih (by simpa using (List.nodup_cons.mp (by simpa using hnd)).2)
  | swap x y l =>
    intro hnd
    rw [find?_cons_eq, find?_cons_eq, find?_cons_eq, find?_cons_eq]
    by_cases hx : (x.1 == k) = true <;> by_cases hy : (y.1 == k) = true
    · exfalso
      have hxy : y.1 ≠ x.1 := by
        simp only [List.map_cons, List.nodup_cons] at hnd
        exact fun he => hnd.1 (by simp [he])
      exact hxy ((beq_iff_eq.mp hy).trans (beq_iff_eq.mp hx).symm)
    · simp [hx, hy]
    · simp [hx, hy]
    · simp [hx, hy]
  | trans h₁ h₂ ih₁ ih₂ =>
    intro hnd
    exact (ih₁ hnd).trans (ih₂ ((h₁.map Prod.fst).nodup hnd))

theorem lookupMapper_eq_of_perm (k : String) {m₁ m₂ : List (String × String)}
    (h : m₁.Perm m₂) (hnd : (m₁.map Prod.fst).Nodup) :
    lookupMapper m₁ k = lookupMapper m₂ k := by
  unfold lookupMapper
  rw [find?_eq_of_perm k h hnd]

theorem sortedEntries_eq_of_perm (p : String × String → Bool)
    {m₁ m₂ : List (String × String)} (h : m₁.Perm m₂) :
    sortedEntries p m₁ = sortedEntries p m₂ := by
  unfold sortedEntries
  refine List.eq_of_perm_of_sorted ?_ (List.sorted_insertionSort pairLe _)
    (List.sorted_insertionSort pairLe _)
  exact (List.perm_insertionSort pairLe _).trans
    ((h.filter p).trans (List.perm_insertionSort pairLe _).symm)

theorem mapperView_eq_of_perm {m₁ m₂ : List (String × String)}
    (h : m₁.Perm m₂) (hnd : (m₁.map Prod.fst).Nodup) :
    mapperView m₁ = mapperView m₂ := by
  unfold mapperView
  have hemp : m₁.isEmpty = m₂.isEmpty := by
    rcases m₁ with _ | ⟨a, l⟩
    · rw [h.nil_eq]
    · rcases m₂ with _ | _
      · exact absurd h.symm.nil_eq (by simp)
      · rfl
  rw [sortedEntries_eq_of_perm _ h, sortedEntries_eq_of_perm _ h,
    sortedEntries_eq_of_perm _ h, sortedEntries_eq_of_perm _ h,
    lookupMapper_eq_of_perm "body" h hnd, lookupMapper_eq_of_perm "params" h hnd,
    lookupMapper_eq_of_perm "headers" h hnd, hemp]

/-- C2: compiling the same trigger twice with identical inputs produces
byte-identical output — the same generated body text and the same import
mapping.  Identity of the mapper input is dict identity: the same key-value
set (any reordering of the underlying items, keys being unique), which is
exactly what the source's `sorted(...)` normalisation guarantees. -/
theorem compile_deterministic (key ucVar : String) (ui : UseCaseCodeInfo)
    (method path : Option String) {m₁ m₂ : List (String × String)}
    (c : CallableSig) (id : Int) (n d : Option String)
    (h : m₁.Perm m₂) (hnd : (m₁.map Prod.fst).Nodup) :
    compileHttpTrigger key ucVar ui ⟨method, path, some m₁⟩ c id n d
      = compileHttpTrigger key ucVar ui ⟨method, path, some m₂⟩ c id n d := by
  unfold compileHttpTrigger
  rw [show (TriggerHttp.mk method path (some m₁)).mapper.getD [] = m₁ from rfl,
    show (TriggerHttp.mk method path (some m₂)).mapper.getD [] = m₂ from rfl,
    mapperView_eq_of_perm h hnd]

/-- Witness for C2: two presentations of the same two-entry mapper dict. -/
theorem compile_deterministic_witness :
    compileHttpTrigger "uc" "f" ⟨false⟩
        ⟨some "POST", some "/p", some [("path_query.a", "x"), ("body", "y")]⟩
        ⟨fun _ => none, none⟩ 0 none none
      = compileHttpTrigger "uc" "f" ⟨false⟩
        ⟨some "POST", some "/p", some [("body", "y"), ("path_query.a", "x")]⟩
        ⟨fun _ => none, none⟩ 0 none none :=
  compile_deterministic "uc" "f" ⟨false⟩ (some "POST") (some "/p")
    ⟨fun _ => none, none⟩ 0 none none (by decide) (by decide)

/-- A callable with no declared parameter types and no inferable return
type: every lookup falls back to the generic text type. -/
def trivialSig : CallableSig := ⟨fun _ => none, none⟩

theorem sortedEntries_keys_sorted (p : String × String → Bool)
    (m : List (String × String)) :
    List.Sorted keyLe ((sortedEntries p m).map Prod.fst) := by
  have hs : List.Sorted pairLe (sortedEntries p m) :=
    List.sorted_insertionSort pairLe _
  refine List.Pairwise.map Prod.fst ?_ hs
  intro a b hab
  rcases pairLe_iff.mp hab with h | ⟨e, _⟩
  · exact charListLeB_of_ltB h
  · show charListLeB a.1.data b.1.data = true
    rw [e]
    exact charListLeB_refl _

/-- C1: in explicit-mapper mode the signature is emitted in the fixed
category order — (1) `path_query.*`, (2) bare `body`, (3) `body.*`,
(4) bare `params`, (5) `params.*`, (6) bare `headers`, (7) `headers.*` —
and inside each dotted category the entries are processed in lexicographic
(code-point) order of the source key. -/
theorem mapper_mode_category_order (c : CallableSig) (mapper : List (String × String))
    (_hm : mapper ≠ []) :
    mapperSigParams c (mapperView mapper)
        = pqSig c (mapperView mapper).pq
            ++ bareSig c (mapperView mapper).bodyAgg "Dict[str, Any]" " = Body(...)"
            ++ bodyFieldSig c (mapperView mapper).bodyFields
            ++ bareSig c (mapperView mapper).paramsAgg "Dict[str, Any]"
                " = Depends(_all_query_params),  "
            ++ paramsFieldSig c (mapperView mapper).paramsFields
            ++ bareSig c (mapperView mapper).headersAgg "Dict[str, str]"
                " = Depends(_all_headers),  "
            ++ headerFieldSig c (mapperView mapper).headerFields
      ∧ List.Sorted keyLe ((mapperView mapper).pq.map Prod.fst)
      ∧ List.Sorted keyLe ((mapperView mapper).bodyFields.map Prod.fst)
      ∧ List.Sorted keyLe ((mapperView mapper).paramsFields.map Prod.fst)
      ∧ List.Sorted keyLe ((mapperView mapper).headerFields.map Prod.fst) :=
  ⟨rfl, sortedEntries_keys_sorted _ _, sortedEntries_keys_sorted _ _,
    sortedEntries_keys_sorted _ _, sortedEntries_keys_sorted _ _⟩

/-- Witness for C1 on a two-entry mapper given in anti-lexicographic order. -/
theorem mapper_mode_category_order_witness :
    ([("path_query.z", "a"), ("path_query.b", "c")] : List (String × String)) ≠ []
      ∧ List.Sorted keyLe
          ((mapperView [("path_query.z", "a"), ("path_query.b", "c")]).pq.map Prod.fst) :=
  ⟨by decide,
    (mapper_mode_category_order trivialSig
      [("path_query.z", "a"), ("path_query.b", "c")] (by decide)).2.1⟩

/-- C7: for the mapper `{path_query.schema: schema_id, path_query.uid: uid}`
and path `/company/data/{schema}/{uid}`, exactly two path-bound parameters
named `schema` and `uid` are emitted in that order, the ArgumentBinding pairs
are `(schema_id, schema)` and `(uid, uid)`, and the generated call receives
`schema_id=schema` and `uid=uid` through the keyword collector. -/
theorem pathQuery_example (c : CallableSig) :
    mapperSigParams c (mapperView [("path_query.schema", "schema_id"), ("path_query.uid", "uid")])
        = ["schema" ++ ": " ++ (annFor c "schema_id").typeStr ++ " = Path(...)",
           "uid" ++ ": " ++ (annFor c "uid").typeStr ++ " = Path(...)"]
      ∧ mapperBindings (mapperView [("path_query.schema", "schema_id"), ("path_query.uid", "uid")])
        = [("schema_id", "schema"), ("uid", "uid")]
      ∧ kwargsLines (mapperView [("path_query.schema", "schema_id"), ("path_query.uid", "uid")])
          "/company/data/\x7bschema\x7d/\x7buid\x7d"
        = ["    _kwargs[\"schema_id\"] = schema", "    _kwargs[\"uid\"] = uid"] := by
  have hv : mapperView [("path_query.schema", "schema_id"), ("path_query.uid", "uid")]
      = ⟨[("path_query.schema", "schema_id"), ("path_query.uid", "uid")],
          none, [], none, [], none, [], false⟩ := by decide
  rw [hv]
  exact ⟨rfl, rfl, rfl⟩

theorem str_append_assoc (a b c : String) : (a ++ b) ++ c = a ++ (b ++ c) :=
  str_ext (by simp [String.data_append, List.append_assoc])

theorem pyStartsWith_append (a b : String) : pyStartsWith (a ++ b) a = true := by
  unfold pyStartsWith
  rw [String.data_append]
  exact List.isPrefixOf_iff_prefix.mpr (List.prefix_append _ _)

theorem get?_reverse_tail3 {α : Type} (pre : List α) (r1 r2 r3 : α) :
    (pre ++ [r1, r2, r3]).reverse.get? 2 = some r1 := by
  rw [List.reverse_append]
  rfl

/-- C6: the generated handler is declared with `async def` exactly when the
callable metadata marks a coroutine (else with `def`), and the generated
invocation is prefixed with `await ` in exactly the same case; moreover an
`async def` line can never coincide with a `def` line. -/
theorem async_propagation (key ucVar : String) (ui : UseCaseCodeInfo) (method path : String)
    (v : MapperView) (c : CallableSig) (id : Int) (n d : Option String) :
    (∃ rest : String,
        (compiledLines key ucVar ui method path v c id n d).get? 1
          = some ((if ui.is_coroutine then "async def" else "def") ++ " " ++ rest))
      ∧ ((compiledLines key ucVar ui method path v c id n d).reverse.get? 2
        = some ("    result = " ++ (if ui.is_coroutine then "await " else "")
            ++ ucVar ++ "(**_kwargs)"))
      ∧ (∀ s t : String, "async def" ++ " " ++ s ≠ "def" ++ " " ++ t) := by
  refine ⟨⟨key ++ "_handler_" ++ toString id ++ "("
      ++ String.intercalate ", " (compiledSigParams c v path) ++ ")" ++ retString c ++ ":",
      ?_⟩, ?_, ?_⟩
  · show some (defLine key ui (compiledSigParams c v path) c id) = _
    refine congrArg some (str_ext ?_)
    simp [defLine, String.data_append, List.append_assoc]
  · show (httpDecorator method path n d
        :: defLine key ui (compiledSigParams c v path) c id
        :: (docstringLines d
            ++ ("    _kwargs: Dict[str, Any] = \x7b\x7d" :: kwargsLines v path)
            ++ [resultLine ui ucVar, "    return result", ""])).reverse.get? 2 = _
    have hsh : httpDecorator method path n d
          :: defLine key ui (compiledSigParams c v path) c id
          :: (docstringLines d
              ++ ("    _kwargs: Dict[str, Any] = \x7b\x7d" :: kwargsLines v path)
              ++ [resultLine ui ucVar, "    return result", ""])
        = (httpDecorator method path n d
            :: defLine key ui (compiledSigParams c v path) c id
            :: (docstringLines d
                ++ ("    _kwargs: Dict[str, Any] = \x7b\x7d" :: kwargsLines v path)))
          ++ [resultLine ui ucVar, "    return result", ""] := by
      simp
    rw [hsh, get?_reverse_tail3]
    rfl
  · intro s t he
    have hd := congrArg String.data he
    simp [String.data_append] at hd

/-! Import hygiene (C3): a mapper containing only `path_query.*` keys makes
every body/query/header category empty, so the only FastAPI symbols the
compiler itself can contribute are `Depends` and `Path`. -/

theorem prefixes_comparable {s p q : String}
    (hp : pyStartsWith s p = true) (hq : pyStartsWith s q = true) :
    p.data.isPrefixOf q.data = true ∨ q.data.isPrefixOf p.data = true := by
  rcases List.prefix_or_prefix_of_prefix (List.isPrefixOf_iff_prefix.mp hp)
      (List.isPrefixOf_iff_prefix.mp hq) with h | h
  · exact Or.inl (List.isPrefixOf_iff_prefix.mpr h)
  · exact Or.inr (List.isPrefixOf_iff_prefix.mpr h)

theorem lookup_none_of_all (m : List (String × String)) (k : String)
    (hk : ∀ kv ∈ m, kv.1 ≠ k) : lookupMapper m k = none := by
  unfold lookupMapper
  cases hf : List.find? (fun kv => kv.1 == k) m with
  | none => rfl
  | some kv =>
    have hps := List.find?_some hf
    exact absurd (beq_iff_eq.mp hps) (hk kv (List.mem_of_find?_eq_some hf))

theorem sortedEntries_nil (p : String × String → Bool) (m : List (String × String))
    (h : ∀ kv ∈ m, p kv = false) : sortedEntries p m = [] := by
  unfold sortedEntries
  rw [List.filter_eq_nil_iff.mpr (fun kv hkv => by simp [h kv hkv])]
  rfl

theorem mem_foldl_union {β : Type} (g : β → Finset (String × String)) (l : List β)
    (acc : Finset (String × String)) (x : String × String) :
    (x ∈ l.foldl (fun a b => a ∪ g b) acc) ↔ x ∈ acc ∨ ∃ b ∈ l, x ∈ g b := by
  induction l generalizing acc with
  | nil => simp
  | cons hd tl ih =>
    simp only [List.foldl_cons, ih, Finset.mem_union, List.mem_cons]
    constructor
    · rintro ((h | h) | ⟨b, hb, hx⟩)
      · exact Or.inl h
      · exact Or.inr ⟨hd, Or.inl rfl, h⟩
      · exact Or.inr ⟨b, Or.inr hb, hx⟩
    · rintro (h | ⟨b, (rfl | hb), hx⟩)
      · exact Or.inl (Or.inl h)
      · exact Or.inl (Or.inr hx)
      · exact Or.inr ⟨b, hb, hx⟩

/-- The callable's own type renderings pull in no `fastapi` symbols — type
annotations require `typing`/model imports, not FastAPI parameter markers. -/
def NoFastapiTypeImports (c : CallableSig) : Prop :=
  (∀ dst a pr, c.paramType dst = some a → pr ∈ a.extraImports → pr.1 ≠ "fastapi")
    ∧ (∀ a pr, c.returnAnn = some a → pr ∈ a.extraImports → pr.1 ≠ "fastapi")

theorem annFor_no_fastapi {c : CallableSig} (hc : NoFastapiTypeImports c)
    (dst : String) (pr : String × String)
    (h : pr ∈ (annFor c dst).extraImports) : pr.1 ≠ "fastapi" := by
  unfold annFor at h
  cases hp : c.paramType dst with
  | none =>
    rw [hp] at h
    simp [strAnn] at h
  | some a =>
    rw [hp] at h
    exact hc.1 dst a pr hp h

/-- C3: when every mapper key is a `path_query.<name>` key (and the callable
contributes no FastAPI symbols through its type annotations), the import set
of the compiled trigger contains none of the body/query/header parameter
symbols `Body`, `Query`, `Header`. -/
theorem path_only_imports (key ucVar : String) (ui : UseCaseCodeInfo)
    (method path : Option String) (m : List (String × String)) (c : CallableSig)
    (id : Int) (n d : Option String)
    (hm : m ≠ [])
    (hpq : ∀ kv ∈ m, pyStartsWith kv.1 "path_query." = true)
    (hc : NoFastapiTypeImports c) :
    ("fastapi", "Body")
        ∉ (compileHttpTrigger key ucVar ui ⟨method, path, some m⟩ c id n d).importing
      ∧ ("fastapi", "Query")
        ∉ (compileHttpTrigger key ucVar ui ⟨method, path, some m⟩ c id n d).importing
      ∧ ("fastapi", "Header")
        ∉ (compileHttpTrigger key ucVar ui ⟨method, path, some m⟩ c id n d).importing := by
  have hie : (mapperView m).isEmpty = false := by
    unfold mapperView
    cases m with
    | nil => exact absurd rfl hm
    | cons a l => rfl
  have hb : (mapperView m).bodyAgg = none :=
    lookup_none_of_all m "body" (fun kv hkv he =>
      absurd (he ▸ hpq kv hkv) (by decide))
  have hp : (mapperView m).paramsAgg = none :=
    lookup_none_of_all m "params" (fun kv hkv he =>
      absurd (he ▸ hpq kv hkv) (by decide))
  have hh : (mapperView m).headersAgg = none :=
    lookup_none_of_all m "headers" (fun kv hkv he =>
      absurd (he ▸ hpq kv hkv) (by decide))
  have hcat : ∀ pre bare : String,
      pre.data.isPrefixOf "path_query.".data = false →
      "path_query.".data.isPrefixOf pre.data = false →
      (∀ kv ∈ m, (pyStartsWith kv.1 pre && kv.1 != bare) = false) := by
    intro pre bare h1 h2 kv hkv
    cases hq : pyStartsWith kv.1 pre with
    | false => rfl
    | true =>
      exfalso
      rcases prefixes_comparable (hpq kv hkv) hq with h | h
      · exact Bool.false_ne_true (h2 ▸ h)
      · exact Bool.false_ne_true (h1 ▸ h)
  have hbf : (mapperView m).bodyFields = [] :=
    sortedEntries_nil _ m (hcat "body." "body" (by decide) (by decide))
  have hpf : (mapperView m).paramsFields = [] :=
    sortedEntries_nil _ m (hcat "params." "params" (by decide) (by decide))
  have hhf : (mapperView m).headerFields = [] :=
    sortedEntries_nil _ m (hcat "headers." "headers" (by decide) (by decide))
  have hmain : ∀ sym : String, sym ≠ "Depends" → sym ≠ "Path" →
      ("fastapi", sym)
        ∉ (compileHttpTrigger key ucVar ui ⟨method, path, some m⟩ c id n d).importing := by
    intro sym h1 h2 hmem
    simp only [compileHttpTrigger, compiledImports] at hmem
    rw [show (TriggerHttp.mk method path (some m)).mapper.getD [] = m from rfl] at hmem
    rw [hie] at hmem
    simp only [Bool.false_eq_true, if_false] at hmem
    rcases Finset.mem_union.mp hmem with hmem | hmem
    · unfold mapperImports at hmem
      rw [hb, hp, hh, hbf, hpf, hhf] at hmem
      simp only [bareImports, catFieldImports, List.foldl_nil, Finset.union_empty,
        Finset.empty_union, Finset.mem_insert] at hmem
      rcases hmem with hmem | hmem
      · exact h1 (congrArg Prod.snd hmem)
      · rcases (mem_foldl_union _ _ _ _).mp hmem with hx | ⟨kv, _, hx⟩
        · exact absurd hx (Finset.not_mem_empty _)
        · rcases Finset.mem_insert.mp hx with hx | hx
          · exact h2 (congrArg Prod.snd hx)
          · exact annFor_no_fastapi hc kv.2 _ hx rfl
    · unfold returnImports at hmem
      cases hr : c.returnAnn with
      | none =>
        rw [hr] at hmem
        exact absurd hmem (Finset.not_mem_empty _)
      | some a =>
        rw [hr] at hmem
        exact hc.2 a _ hr hmem rfl
  exact ⟨hmain "Body" (by decide) (by decide), hmain "Query" (by decide) (by decide),
    hmain "Header" (by decide) (by decide)⟩

/-- Witness for C3: a single `path_query.item` binding with a type-less
callable. -/
theorem path_only_imports_witness :
    ("fastapi", "Body")
        ∉ (compileHttpTrigger "uc" "f" ⟨false⟩
            ⟨none, some "/i/{item}", some [("path_query.item", "item_id")]⟩
            trivialSig 0 none none).importing :=
  (path_only_imports "uc" "f" ⟨false⟩ none (some "/i/{item}")
    [("path_query.item", "item_id")] trivialSig 0 none none
    (by decide) (by decide)
    ⟨fun dst a pr hpa => by simp [trivialSig] at hpa,
     fun a pr hra => by simp [trivialSig] at hra⟩).1

/-! Runtime semantics of the fallback-mode keyword assembly (C4): the emitted
statements build a Python dict by single-key assignment and `dict.update`. -/

/-- Assignment `d[k] = v` on a dict modelled extensionally. -/
def dictInsert {V : Type} (d : String → Option V) (k : String) (v : V) :
    String → Option V :=
  fun q => if q = k then some v else d q

/-- Update `d.update(kvs)`: iterate the update source, later entries overriding. -/
def dictUpdate {V : Type} (d : String → Option V) (kvs : List (String × V)) :
    String → Option V :=
  kvs.foldl (fun acc kv => dictInsert acc kv.1 kv.2) d

/-- The fresh `_kwargs = {}`. -/
def emptyKwargs {V : Type} : String → Option V := fun _ => none

/-- Semantics of the statements the fallback branch emits: path values are
assigned one by one, then — only when the body is a dict — the body entries
are merged, then the query parameters, then the headers. -/
def fallbackKwargs {V : Type} (pathVals : List (String × V))
    (body : Option (List (String × V))) (query headers : List (String × V)) :
    String → Option V :=
  dictUpdate
    (dictUpdate
      (match body with
        | some b => dictUpdate (dictUpdate emptyKwargs pathVals) b
        | none => dictUpdate emptyKwargs pathVals)
      query)
    headers

theorem dictUpdate_not_mem {V : Type} {k : String} {kvs : List (String × V)}
    (d : String → Option V) (h : k ∉ kvs.map Prod.fst) : dictUpdate d kvs k = d k := by
  induction kvs generalizing d with
  | nil => rfl
  | cons kv tl ih =>
    simp only [List.map_cons, List.mem_cons, not_or] at h
    show dictUpdate (dictInsert d kv.1 kv.2) tl k = d k
    rw [ih _ (by simpa using h.2)]
    simp [dictInsert, h.1]

theorem dictUpdate_mem {V : Type} {k : String} {v : V} {kvs : List (String × V)}
    (d : String → Option V) (hmem : (k, v) ∈ kvs)
    (hnd : (kvs.map Prod.fst).Nodup) : dictUpdate d kvs k = some v := by
  induction kvs generalizing d with
  | nil => simp at hmem
  | cons kv tl ih =>
    simp only [List.map_cons, List.nodup_cons] at hnd
    rcases List.mem_cons.mp hmem with he | hmem2
    · show dictUpdate (dictInsert d kv.1 kv.2) tl k = some v
      rw [dictUpdate_not_mem _ (by rw [show kv.1 = k from congrArg Prod.fst he.symm] at hnd; exact hnd.1)]
      rw [← he]
      simp [dictInsert]
    · exact ih _ hmem2 hnd.2

/-- C4: in fallback mode the generated body populates `_kwargs` in the fixed
order — one assignment per path parameter, then the body merge guarded by the
dict check, then the query merge, then the header merge — and under the
update semantics of those statements a key present in both body and query
(and not in headers) ends up with the query's value. -/
theorem fallback_merge_order (key ucVar : String) (ui : UseCaseCodeInfo)
    (method path : String) (c : CallableSig) (id : Int) (n d : Option String) :
    (compiledLines key ucVar ui method path (mapperView []) c id n d
        = ([httpDecorator method path n d,
            defLine key ui (fallbackSigParams c path) c id]
            ++ docstringLines d ++ ["    _kwargs: Dict[str, Any] = \x7b\x7d"])
          ++ (extractPathParamNames path).map
              (fun p => "    _kwargs[\"" ++ p ++ "\"] = " ++ p)
          ++ ["    if isinstance(body, dict):",
              "        _kwargs.update(body)",
              "    _kwargs.update(query_params)",
              "    _kwargs.update(headers)",
              resultLine ui ucVar, "    return result", ""])
      ∧ (∀ (V : Type) (pathVals b query headers : List (String × V)) (k : String) (v : V),
          (k, v) ∈ query → (query.map Prod.fst).Nodup → k ∉ headers.map Prod.fst →
            fallbackKwargs pathVals (some b) query headers k = some v) := by
  constructor
  · have hv : mapperView [] = ⟨[], none, [], none, [], none, [], true⟩ := rfl
    simp only [compiledLines, kwargsLines, compiledSigParams, hv]
    simp [List.append_assoc]
  · intro V pathVals b query headers k v hq hnd hh
    unfold fallbackKwargs
    rw [dictUpdate_not_mem _ hh]
    exact dictUpdate_mem _ hq hnd

/-- Witness for C4: key `x` is both a body entry (value 2) and a query entry
(value 3); the assembled kwargs give it the query's value. -/
theorem fallback_merge_order_witness :
    fallbackKwargs [("item_id", 1)] (some [("x", 2)]) [("x", 3)] ([] : List (String × Nat)) "x"
      = some 3 :=
  (fallback_merge_order "uc" "f" ⟨false⟩ "GET" "/items/\x7bitem_id\x7d" trivialSig 0
      none none).2
    Nat [("item_id", 1)] [("x", 2)] [("x", 3)] [] "x" 3 (by decide) (by decide) (by decide)

/-! C8: every binding's local name is declared in the signature. -/

theorem pyStartsWith_of_data (t : List Char) {s p : String} (h : s.data = p.data ++ t) :
    pyStartsWith s p = true := by
  unfold pyStartsWith
  rw [h]
  exact List.isPrefixOf_iff_prefix.mpr (List.prefix_append _ _)

theorem dotted_block (c : CallableSig) (entries : List (String × String))
    (tail : String × String → String) {pr : String × String}
    (h : pr ∈ fieldBind entries) :
    ∃ s ∈ entries.map (fun kv =>
        afterFirstDot kv.1 ++ ": " ++ (annFor c kv.2).typeStr ++ tail kv),
      pyStartsWith s (pr.2 ++ ": ") = true := by
  simp only [fieldBind, List.mem_map] at h
  rcases h with ⟨kv, hkv, rfl⟩
  refine ⟨afterFirstDot kv.1 ++ ": " ++ (annFor c kv.2).typeStr ++ tail kv,
    List.mem_map_of_mem _ hkv, ?_⟩
  exact pyStartsWith_of_data ((annFor c kv.2).typeStr.data ++ (tail kv).data)
    (by simp [String.data_append, List.append_assoc])

theorem bare_block (c : CallableSig) (dst : String) (ft suffix : String)
    {pr : String × String} (h : pr ∈ bareBind (some dst)) :
    ∃ s ∈ bareSig c (some dst) ft suffix, pyStartsWith s (pr.2 ++ ": ") = true := by
  simp only [bareBind, List.mem_singleton] at h
  subst h
  refine ⟨dst ++ ": "
      ++ (match c.paramType dst with
          | none => ft
          | some a => a.typeStr) ++ suffix, by simp [bareSig], ?_⟩
  exact pyStartsWith_of_data
    ((match c.paramType dst with
      | none => ft
      | some a => a.typeStr).data ++ suffix.data)
    (by simp [String.data_append, List.append_assoc])

/-- C8: every destination binding recorded in ArgumentBinding refers, through
its local-variable component, to a name that is declared as a parameter of
the generated signature (the signature entry textually starts with
`<local>: `), so the generated call never references an undeclared local. -/
theorem bindings_declared (c : CallableSig) (v : MapperView) :
    ∀ pr ∈ mapperBindings v,
      ∃ s ∈ mapperSigParams c v, pyStartsWith s (pr.2 ++ ": ") = true := by
  intro pr hpr
  simp only [mapperBindings, List.mem_append] at hpr
  unfold mapperSigParams
  rcases hpr with ((((((h | h) | h) | h) | h) | h) | h)
  · rcases dotted_block c v.pq (fun _ => " = Path(...)") h with ⟨s, hs, hp⟩
    exact ⟨s, by simp only [List.mem_append]; exact Or.inl (Or.inl (Or.inl (Or.inl
      (Or.inl (Or.inl hs))))), hp⟩
  · cases hba : v.bodyAgg with
    | none => rw [hba] at h; simp [bareBind] at h
    | some dst =>
      rw [hba] at h
      rcases bare_block c dst "Dict[str, Any]" " = Body(...)" h with ⟨s, hs, hp⟩
      exact ⟨s, by simp only [List.mem_append]; exact Or.inl (Or.inl (Or.inl (Or.inl
        (Or.inl (Or.inr hs))))), hp⟩
  · rcases dotted_block c v.bodyFields
        (fun kv => " = Body(..., alias=" ++ pyRepr (afterFirstDot kv.1) ++ "),  ") h
      with ⟨s, hs, hp⟩
    exact ⟨s, by simp only [List.mem_append]; exact Or.inl (Or.inl (Or.inl (Or.inl
      (Or.inr hs)))), hp⟩
  · cases hba : v.paramsAgg with
    | none => rw [hba] at h; simp [bareBind] at h
    | some dst =>
      rw [hba] at h
      rcases bare_block c dst "Dict[str, Any]" " = Depends(_all_query_params),  " h
        with ⟨s, hs, hp⟩
      exact ⟨s, by simp only [List.mem_append]; exact Or.inl (Or.inl (Or.inl
        (Or.inr hs))), hp⟩
  · rcases dotted_block c v.paramsFields
        (fun kv => " = Query(None, alias=" ++ pyRepr (afterFirstDot kv.1) ++ "),  ") h
      with ⟨s, hs, hp⟩
    exact ⟨s, by simp only [List.mem_append]; exact Or.inl (Or.inl (Or.inr hs)), hp⟩
  · cases hba : v.headersAgg with
    | none => rw [hba] at h; simp [bareBind] at h
    | some dst =>
      rw [hba] at h
      rcases bare_block c dst "Dict[str, str]" " = Depends(_all_headers),  " h
        with ⟨s, hs, hp⟩
      exact ⟨s, by simp only [List.mem_append]; exact Or.inl (Or.inr hs), hp⟩
  · rcases dotted_block c v.headerFields
        (fun kv => " = Header(..., alias=" ++ pyRepr (afterFirstDot kv.1) ++ "),  ") h
      with ⟨s, hs, hp⟩
    exact ⟨s, by simp only [List.mem_append]; exact Or.inr hs, hp⟩

/-- Witness for C8: the binding `(payload, payload)` of a bare `body` mapper
has a matching declared parameter. -/
theorem bindings_declared_witness :
    ∃ s ∈ mapperSigParams trivialSig (mapperView [("body", "payload")]),
      pyStartsWith s ((("payload", "payload") : String × String).2 ++ ": ") = true :=
  bindings_declared trivialSig (mapperView [("body", "payload")])
    ("payload", "payload") (by decide)

/-! C9: the default path `/{use_case_key}` for an empty or missing template. -/

theorem slash_key_ne_empty (key : String) : "/" ++ key ≠ "" := by
  intro he
  have hd := congrArg String.data he
  simp [String.data_append] at hd

/-- C9: when the trigger's path template is missing or empty, compilation is
identical to compilation with the default path `/{use_case_key}`: the default
is the literal path of the decorator line, and (the path argument being the
default everywhere downstream) fallback-mode path-parameter extraction reads
the default path. -/
theorem default_path (key ucVar : String) (ui : UseCaseCodeInfo) (t : TriggerHttp)
    (c : CallableSig) (id : Int) (n d : Option String)
    (hpath : t.path = none ∨ t.path = some "") :
    compileHttpTrigger key ucVar ui t c id n d
        = compileHttpTrigger key ucVar ui ⟨t.method, some ("/" ++ key), t.mapper⟩ c id n d
      ∧ (compiledLines key ucVar ui (pyToUpper (pyOr t.method "GET"))
            (pyOr t.path ("/" ++ key)) (mapperView (t.mapper.getD [])) c id n d).get? 0
        = some (httpDecorator (pyToUpper (pyOr t.method "GET")) ("/" ++ key) n d)
      ∧ pyOr t.path ("/" ++ key) = "/" ++ key := by
  have hpw : pyOr t.path ("/" ++ key) = "/" ++ key := by
    rcases hpath with h | h <;> rw [h] <;> simp [pyOr]
  have hpw2 : pyOr (some ("/" ++ key)) ("/" ++ key) = "/" ++ key := by
    simp [pyOr, slash_key_ne_empty key]
  refine ⟨?_, ?_, hpw⟩
  · simp only [compileHttpTrigger]
    rw [hpw, hpw2]
  · rw [hpw]
    rfl

/-- Witness for C9: a trigger with a missing path. -/
theorem default_path_witness :
    pyOr (TriggerHttp.mk (some "GET") none none).path ("/" ++ "uc") = "/" ++ "uc" :=
  (default_path "uc" "f" ⟨false⟩ ⟨some "GET", none, none⟩ trivialSig 0 none none
    (Or.inl rfl)).2.2

/-- C10: fallback-mode signatures consist of the path-bound parameters
followed by exactly the three fixed aggregates `body`, `query_params`,
`headers` (with `body` typed `Dict[str, Any]` and defaulting to the empty
dict); the fixed names are used regardless of the path, so a path placeholder
named `body` yields two parameters declared with the name `body`. -/
theorem fallback_signature (c : CallableSig) (path : String) :
    fallbackSigParams c path
        = (extractPathParamNames path).map
            (fun p => p ++ ": " ++ (annFor c p).typeStr ++ " = Path(...)")
          ++ ["body: Dict[str, Any] = Body(default=\x7b\x7d)",
              "query_params: Dict[str, Any] = Depends(_all_query_params)",
              "headers: Dict[str, str] = Depends(_all_headers)"]
      ∧ ("body" ∈ extractPathParamNames path →
          2 ≤ (fallbackSigParams c path).countP (fun s => pyStartsWith s "body: ")) := by
  refine ⟨rfl, fun hmem => ?_⟩
  have heq : fallbackSigParams c path
      = (extractPathParamNames path).map
          (fun p => p ++ ": " ++ (annFor c p).typeStr ++ " = Path(...)")
        ++ ["body: Dict[str, Any] = Body(default=\x7b\x7d)",
            "query_params: Dict[str, Any] = Depends(_all_query_params)",
            "headers: Dict[str, str] = Depends(_all_headers)"] := rfl
  rw [heq, List.countP_append]
  have h1 : 0 < List.countP (fun s => pyStartsWith s "body: ")
      ((extractPathParamNames path).map
        (fun p => p ++ ": " ++ (annFor c p).typeStr ++ " = Path(...)")) := by
    refine List.countP_pos_iff.mpr ⟨"body" ++ ": " ++ (annFor c "body").typeStr
      ++ " = Path(...)", List.mem_map_of_mem _ hmem, ?_⟩
    exact pyStartsWith_of_data ((annFor c "body").typeStr.data ++ " = Path(...)".data)
      (by simp [String.data_append, List.append_assoc])
  have h2 : 0 < List.countP (fun s => pyStartsWith s "body: ")
      ["body: Dict[str, Any] = Body(default=\x7b\x7d)",
        "query_params: Dict[str, Any] = Depends(_all_query_params)",
        "headers: Dict[str, str] = Depends(_all_headers)"] := by decide
  omega

/-- Witness for C10: the path `/{body}` produces a duplicated `body`
parameter next to the fixed aggregate. -/
theorem fallback_signature_witness :
    2 ≤ (fallbackSigParams trivialSig "/\x7bbody\x7d").countP
      (fun s => pyStartsWith s "body: ") :=
  (fallback_signature trivialSig "/\x7bbody\x7d").2 (by decide)

/-- Counterexample for C8 as frozen: for the mapper
`{path_query.schema: schema_id}` the ArgumentBinding list contains the
destination name `schema_id`, yet no parameter of the generated signature is
declared with that name (and the signature declares no aggregate parameter at
all — it is exactly `[schema: str = Path(...)]`): only the local component
`schema` is declared. -/
theorem bindings_dst_not_declared :
    ("schema_id", "schema") ∈ mapperBindings (mapperView [("path_query.schema", "schema_id")])
      ∧ mapperSigParams trivialSig (mapperView [("path_query.schema", "schema_id")])
        = ["schema: str = Path(...)"]
      ∧ ¬ ∃ s ∈ mapperSigParams trivialSig (mapperView [("path_query.schema", "schema_id")]),
          pyStartsWith s ("schema_id" ++ ": ") = true := by
  refine ⟨by decide, by decide, ?_⟩
  decide

end Bisslog

